import Mathlib

/-!
Verification of the agent-coordination core of the MSys control plane.

The repository carries two parallel backends, `RMS_Backend` and
`cisco_ai_backend`, that implement the same control plane.  This file gives a
shallow embedding of the parts relevant to the frozen claims:

* the agent rows and agent/network bindings, with the dispatch selection
  queries of `RMS_Backend/app/api/v1/endpoints/agents/discovery.py` and
  `RMS_Backend/app/core/background_tasks.py` (the cisco sweeper in
  `cisco_ai_backend/app/core/background_tasks.py` is not modelled as a
  selection: its module import fails — `pending_discovery_requests` is not
  defined in `endpoints/agents.py` — and its query references
  `Agent.network_id`, a column the cisco `Agent` model does not declare,
  so it never selects an agent);
* the derived online/offline status rule of
  `RMS_Backend/app/api/v1/endpoints/agents/authentication.py` (also applied
  verbatim in `discovery.py`);
* the heartbeat handlers of
  `RMS_Backend/app/services/agents/agent_service.py` and
  `cisco_ai_backend/app/api/v1/endpoints/agents.py`;
* the in-memory pending-work table of
  `cisco_ai_backend/app/services/agent_status_service.py`;
* the session-progress tracker of
  `RMS_Backend/app/services/agents/agent_discovery_service.py`;
* the result reconciler of
  `cisco_ai_backend/app/services/agent_discovery_service.py` and the manual
  device update of `cisco_ai_backend/app/services/device_service.py`;
* the round-robin IP distribution of
  `cisco_ai_backend/app/utils/discovery_utils.py`.

Timestamps are modelled as epoch seconds (`Int`) together with a `naive` flag
mirroring a Python `datetime` without `tzinfo`; `tzinfo=timezone.utc`
coercion keeps the instant and clears the flag.  The ORM row set of a table
is a `List` of row structures; mutating the single object returned by a
`filter(...).first()` query is modelled by replacing the first row matching
the query predicate.  The persistence layer itself (transactions, column
constraints) is out of scope per the specification and is modelled as a
plain row store.

The `Agent` row structure is reconstructed from the columns the services
read and write (`RMS_Backend/app/models/base.py` itself is not among the
sources; `cisco_ai_backend/app/models/base.py` is, and declares the same
columns used here).
-/

namespace MSys

/-- A Python `datetime`: epoch seconds plus whether `tzinfo` is absent. -/
structure Timestamp where
  naive : Bool
  sec : Int
  deriving DecidableEq, Repr

/-- Mirrors `ts.replace(tzinfo=timezone.utc)` applied when `tzinfo is None`:
the stored instant is kept, the value merely becomes timezone-aware. -/
def coerceUTC (t : Timestamp) : Timestamp :=
  if t.naive then { t with naive := false } else t

/-- An `agents` table row, with the columns the coordination code
touches. -/
structure Agent where
  id : Nat
  name : String
  token : String
  status : String
  tokenStatus : String
  lastHeartbeat : Option Timestamp
  lastUsedAt : Option Timestamp
  deriving DecidableEq, Repr

/-- An `agent_network_access` row binding an agent to a network. -/
structure AgentNetworkBinding where
  agentId : Nat
  networkId : Nat
  deriving DecidableEq, Repr

/-- The slice of the persistent store the dispatch queries read. -/
structure AgentDB where
  agents : List Agent
  bindings : List AgentNetworkBinding
  deriving Repr

/-- The join condition `Agent join AgentNetworkAccess ... network_id == n`. -/
def boundTo (db : AgentDB) (aid n : Nat) : Bool :=
  db.bindings.any fun b => b.agentId == aid && b.networkId == n

/-- SQL comparison `Agent.last_heartbeat >= cutoff`; a NULL heartbeat
compares false. -/
def heartbeatAtLeast (a : Agent) (cutoff : Int) : Bool :=
  match a.lastHeartbeat with
  | some t => decide (cutoff ≤ t.sec)
  | none => false

/-- Selection query of `agent_discovery` as written
(RMS `endpoints/agents/discovery.py`, lines 52-58): bound to the network,
stored status `online`, `last_heartbeat >= utcnow() - 5 minutes`, first
row; no `token_status` condition.  The handler raises `NameError` at line
40 before reaching this query (see `agentDiscoveryEndpoint`), so it is
dead code. -/
def rmsDispatchSelect (now : Int) (db : AgentDB) (n : Nat) : Option Agent :=
  db.agents.find? fun a =>
    boundTo db a.id n && a.status == "online" && heartbeatAtLeast a (now - 300)

/-- Selection of the RMS background sweeper (`core/background_tasks.py`,
lines 42-53, `.all()` followed by taking element 0): bound to the network,
status `online`, `token_status` `active`, first row.  The query has no
heartbeat-freshness condition. -/
def rmsSweepSelect (db : AgentDB) (n : Nat) : Option Agent :=
  db.agents.find? fun a =>
    boundTo db a.id n && a.status == "online" && a.tokenStatus == "active"

/-- Derived online/offline status, as computed by `get_agent_status`
(`authentication.py`, lines 91-106) and by
`get_available_agents_for_network` (`discovery.py`, lines 112-128): coerce
a naive heartbeat to UTC, then `offline` iff the age exceeds 60 seconds;
no heartbeat means `offline`. -/
def deriveStatus (nowSec : Int) (hb : Option Timestamp) : String :=
  match hb with
  | some t =>
      let tu := coerceUTC t
      if nowSec - tu.sec > 60 then "offline" else "online"
  | none => "offline"

/-- An HTTP error response `{status_code, detail}`. -/
structure HttpError where
  status : Nat
  detail : String
  deriving DecidableEq, Repr

/-- Replace the first element satisfying `p` by `new`; this is how mutating
the single ORM object returned by a `filter(...).first()` query acts on the
row list. -/
def replaceFirst (p : α → Bool) (new : α) : List α → List α
  | [] => []
  | x :: xs => if p x then new :: xs else x :: replaceFirst p new xs

/-- Row lookup `query(Agent).filter(Agent.agent_token == tok).first()`. -/
def findByToken (agents : List Agent) (tok : String) : Option Agent :=
  agents.find? fun a => a.token == tok

/-- RMS heartbeat handler `AgentService.handle_agent_heartbeat`
(`agent_service.py`, lines 243-285): 401 when the token does not resolve,
401 when `token_status != "active"` (both leave the rows untouched);
otherwise stamp `last_heartbeat`/`last_used_at` and set status `online`. -/
def handleAgentHeartbeat (now : Timestamp) (tok : String) (agents : List Agent) :
    Except HttpError Unit × List Agent :=
  match findByToken agents tok with
  | none => (.error ⟨401, "Invalid agent token"⟩, agents)
  | some a =>
      if a.tokenStatus ≠ "active" then
        (.error ⟨401, "Agent token is not active"⟩, agents)
      else
        (.ok (),
         replaceFirst (fun x => x.token == tok)
           { a with lastHeartbeat := some now, lastUsedAt := some now,
                    status := "online" } agents)

/-- cisco heartbeat endpoint `agent_heartbeat`
(`cisco_ai_backend/app/api/v1/endpoints/agents.py`, lines 395-433): only
token resolution is checked; on success `update_agent_heartbeat` stamps
`last_heartbeat`/`last_used_at` and the endpoint forces status `online`.
There is no `token_status` check on this path. -/
def ciscoAgentHeartbeat (now : Timestamp) (tok : String) (agents : List Agent) :
    Except HttpError Unit × List Agent :=
  match findByToken agents tok with
  | none => (.error ⟨401, "Invalid agent token"⟩, agents)
  | some a =>
      (.ok (),
       replaceFirst (fun x => x.token == tok)
         { a with lastHeartbeat := some now, lastUsedAt := some now,
                  status := "online" } agents)

/-! ### Pending-work dispatch table

`pending_discovery_requests` is a Python dict mapping an agent id to the
single request object stored for it (`agent_status_service.py`; the RMS
services and both sweepers assign into the same kind of dict).  It is
modelled as an association list; dict assignment replaces the binding in
place when the key exists, otherwise appends it, and `del` removes the
binding.  Only the `type` and `session_id` fields are inspected by the
table operations, so a work item is modelled by those plus `network_id`. -/

/-- A pending work item as stored in `pending_discovery_requests`. -/
structure WorkItem where
  type : String
  sessionId : String
  networkId : Nat
  deriving DecidableEq, Repr

/-- The in-memory dispatch table `map agent_id -> work item`. -/
abbrev PendingTable := List (Nat × WorkItem)

/-- Python dict assignment `table[aid] = it`. -/
def setItem : PendingTable → Nat → WorkItem → PendingTable
  | [], aid, it => [(aid, it)]
  | (k, v) :: rest, aid, it =>
      if k = aid then (aid, it) :: rest else (k, v) :: setItem rest aid it

/-- Python dict lookup `table.get(aid)`. -/
def getItem (t : PendingTable) (aid : Nat) : Option WorkItem :=
  (t.find? fun e => e.1 == aid).map Prod.snd

/-- Python `del table[aid]`: drop the binding for `aid`. -/
def eraseKey : PendingTable → Nat → PendingTable
  | [], _ => []
  | (k, v) :: rest, aid => if k = aid then rest else (k, v) :: eraseKey rest aid

/-- Enqueue: the table effect shared by `create_status_test_request`,
`create_discovery_request` and both background sweepers — a plain dict
assignment that overwrites any existing item for the agent. -/
def enqueueWork (t : PendingTable) (aid : Nat) (it : WorkItem) : PendingTable :=
  setItem t aid it

/-- Poll: `get_pending_discovery_requests(agent_id)`
(`agent_status_service.py`, lines 45-84).  Returns the stored request as a
one-element list; a `status_test` item is deleted on delivery, any other
type is retained. -/
def pollPending (t : PendingTable) (aid : Nat) : List WorkItem × PendingTable :=
  match getItem t aid with
  | none => ([], t)
  | some it =>
      ([it], if it.type == "status_test" then eraseKey t aid else t)

/-- Acknowledge: `cleanup_discovery_request(agent_id, session_id)`
(`agent_status_service.py`, lines 153-159).  Deletes the stored item only
when its `session_id` matches. -/
def cleanupRequest (t : PendingTable) (aid : Nat) (sid : String) : PendingTable :=
  match getItem t aid with
  | none => t
  | some it => if it.sessionId == sid then eraseKey t aid else t

/-- The operations that touch the dispatch table. -/
inductive PendingOp where
  | enqueue (aid : Nat) (it : WorkItem)
  | poll (aid : Nat)
  | cleanup (aid : Nat) (sid : String)
  deriving DecidableEq, Repr

/-- State transition of one table operation. -/
def applyPendingOp (t : PendingTable) : PendingOp → PendingTable
  | .enqueue aid it => enqueueWork t aid it
  | .poll aid => (pollPending t aid).2
  | .cleanup aid sid => cleanupRequest t aid sid

/-- Run a sequence of table operations. -/
def runPending (t : PendingTable) (ops : List PendingOp) : PendingTable :=
  ops.foldl applyPendingOp t

/-- The item of the most recent enqueue for `aid` in `ops`, starting from
`init` (specification-side bookkeeping for the claims). -/
def lastEnqFrom (init : Option WorkItem) (ops : List PendingOp) (aid : Nat) :
    Option WorkItem :=
  ops.foldl
    (fun cur op =>
      match op with
      | .enqueue a it => if a = aid then some it else cur
      | _ => cur)
    init

/-- Number of table entries for one agent. -/
def countKey (t : PendingTable) (aid : Nat) : Nat :=
  t.countP fun e => e.1 == aid

/-- Well-formedness of the table: one binding per key (a Python dict can
never hold two). -/
def pendingKeysNodup (t : PendingTable) : Prop :=
  (t.map Prod.fst).Nodup

/-! ### Session tracker -/

/-- A discovery-session record as stored in `discovery_sessions`. -/
structure SessionRec where
  progress : Int
  status : String
  discoveredDevices : List String
  errors : List String
  networkId : Option Nat
  startedAt : Timestamp
  completedAt : Option Timestamp
  deriving DecidableEq, Repr

/-- The in-memory session map `session_id -> session`. -/
abbrev SessionTable := List (String × SessionRec)

/-- Python dict lookup `sessions.get(sid)`. -/
def lookupSession (ss : SessionTable) (sid : String) : Option SessionRec :=
  (ss.find? fun p => p.1 == sid).map Prod.snd

/-- Progress update `AgentDiscoveryService.update_discovery_progress`
(RMS `agent_discovery_service.py`, lines 121-153): missing session returns
`False`; otherwise the supplied progress value overwrites the stored one,
non-empty device/error lists are appended, and the status becomes
`completed` (stamping `completed_at`) at progress >= 100 or `in_progress`
at progress > 0. -/
def update_discovery_progress (now : Timestamp) (sessions : SessionTable)
    (sid : String) (progress : Int) (devices errors : List String) :
    Bool × SessionTable :=
  match lookupSession sessions sid with
  | none => (false, sessions)
  | some s =>
      let s1 := { s with progress := progress }
      let s2 := if devices.isEmpty then s1
                else { s1 with discoveredDevices := s1.discoveredDevices ++ devices }
      let s3 := if errors.isEmpty then s2
                else { s2 with errors := s2.errors ++ errors }
      let s4 := if progress ≥ 100 then
                  { s3 with status := "completed", completedAt := some now }
                else if progress > 0 then { s3 with status := "in_progress" }
                else s3
      (true, replaceFirst (fun p => p.1 == sid) (sid, s4) sessions)

/-! ### User discovery dispatch endpoint -/

/-- Outcome of the `POST /discovery` handler. -/
inductive DiscoveryOutcome where
  | ok (agentName : String)
  | httpError (e : HttpError)
  deriving DecidableEq, Repr

/-- Whether the name `User` resolves inside
`RMS_Backend/app/api/v1/endpoints/agents/discovery.py`.  The module's
imports (lines 11-22) bring in `Agent` and `AgentNetworkAccess` but not
`User`, so it does not. -/
def discoveryModuleUserImported : Bool := false

/-- The `POST /discovery` handler `agent_discovery`
(RMS `endpoints/agents/discovery.py`, lines 32-81).  Its first statement,
`db.query(User)` at line 40, references the unimported name `User`, so
every request raises `NameError` inside the `try`, is caught by
`except Exception` and answered with HTTP 500 and detail
`f"Error routing discovery: {e}"` (here the Python rendering of the
`NameError`).  The branch guarded by `discoveryModuleUserImported` is the
body as written — 404 for a missing user, 403 without network access, 404
with `"No online agent available for this network"` when the selection
finds no agent, placeholder success otherwise — and is unreachable.  The
handler never writes the pending-work table or the session table, so both
are returned unchanged on every path. -/
def agentDiscoveryEndpoint (now : Int) (db : AgentDB)
    (userExists hasNetworkAccess : Bool) (networkId : Nat)
    (pending : PendingTable) (sessions : SessionTable) :
    DiscoveryOutcome × PendingTable × SessionTable :=
  if discoveryModuleUserImported then
    if !userExists then
      (.httpError ⟨404, "User not found"⟩, pending, sessions)
    else if !hasNetworkAccess then
      (.httpError ⟨403, "No access to this network"⟩, pending, sessions)
    else
      match rmsDispatchSelect now db networkId with
      | none =>
          (.httpError ⟨404, "No online agent available for this network"⟩,
           pending, sessions)
      | some a => (.ok a.name, pending, sessions)
  else
    (.httpError
      ⟨500, "Error routing discovery: name 'User' is not defined"⟩,
     pending, sessions)

/-! ### Result reconciler and device inventory -/

/-- SNMP configuration reported by an agent for one device. -/
structure SnmpConfigData where
  snmpVersion : Option String
  community : Option String
  username : Option String
  authProtocol : Option String
  authPassword : Option String
  privProtocol : Option String
  privPassword : Option String
  port : Option Nat
  deriving DecidableEq, Repr

/-- One reported device record, after JSON decoding; `Option` marks keys
that may be absent (`dict.get` defaults are applied at use sites exactly as
in the source).  `uptimeSeconds` is the value after the deterministic
`_parse_uptime_string` preprocessing of lines 197-202. -/
structure ReportedDevice where
  hostname : Option String
  name : Option String
  ip : String
  deviceType : Option String
  location : Option String
  vendor : Option String
  osVersion : Option String
  serialNumber : Option String
  description : Option String
  uptimeSeconds : Int
  discoveryMethod : Option String
  pingStatus : Bool
  snmpStatus : Bool
  contact : Option String
  capabilities : List String
  snmpConfig : Option SnmpConfigData
  deriving DecidableEq, Repr

/-- A `devices` table row (columns touched by the reconciler and the manual
update path). -/
structure DeviceRow where
  id : Nat
  name : String
  ip : String
  type : String
  location : String
  platform : String
  osVersion : String
  serialNumber : String
  username : Option String
  password : Option String
  pingStatus : Bool
  snmpStatus : Bool
  discoveryMethod : String
  networkId : Nat
  companyId : Nat
  ownerId : Nat
  createdAt : Timestamp
  updatedAt : Timestamp
  deriving DecidableEq, Repr

/-- A `device_topology` row. -/
structure TopologyRow where
  deviceId : Nat
  networkId : Nat
  hostname : String
  vendor : String
  model : String
  uptime : Int
  lastPolled : Timestamp
  healthLocation : String
  healthContact : String
  healthCapabilities : List String
  deriving DecidableEq, Repr

/-- A `device_snmp` row. -/
structure SnmpRow where
  deviceId : Nat
  snmpVersion : String
  community : Option String
  username : Option String
  authProtocol : Option String
  authPassword : Option String
  privProtocol : Option String
  privPassword : Option String
  port : Nat
  deriving DecidableEq, Repr

/-- The persistent inventory; `nextId` models the id the store assigns to
the next inserted device (`db.flush()`). -/
structure Inventory where
  nextId : Nat
  devices : List DeviceRow
  topologies : List TopologyRow
  snmps : List SnmpRow
  deriving DecidableEq, Repr

/-- Python `sub in s` for a non-empty pattern: `splitOn` yields more than
one piece exactly when the pattern occurs. -/
def containsStr (s sub : String) : Bool :=
  (s.splitOn sub).length != 1

/-- Vendor/model derivation from the SNMP description
(`agent_discovery_service.py`, lines 168-195). -/
def deriveVendorModel (description : String) : String × String :=
  if description == "" then ("Unknown", "Unknown")
  else if containsStr description "Cisco" then
    ("Cisco",
     if containsStr description "Catalyst" then "Catalyst L3 Switch Software"
     else if containsStr description "IOS" then "Cisco IOS"
     else if containsStr description "NX-OS" then "Cisco NX-OS"
     else "Cisco Device")
  else if containsStr description "Juniper" then ("Juniper", "Juniper Device")
  else if containsStr description "HP" || containsStr description "HPE" then
    ("HP", "HP Device")
  else if containsStr description "Dell" then ("Dell", "Dell Device")
  else ("Unknown", "Unknown Device")

/-- `device_name = data.get("hostname", data.get("name", f"Device-{ip}"))`. -/
def reportedName (d : ReportedDevice) : String :=
  d.hostname.getD (d.name.getD ("Device-" ++ d.ip))

/-- Row predicate of the reconciler's key query
`Device.ip == ip and Device.network_id == network_id`. -/
def devKey (ip : String) (n : Nat) (r : DeviceRow) : Bool :=
  r.ip == ip && r.networkId == n

/-- The field assignments the reconciler's update branch performs on an
existing device row (lines 215-226); the insert branch passes the same
values to the constructor. -/
def applyReported (d : ReportedDevice) (now : Timestamp) (r : DeviceRow) :
    DeviceRow :=
  { r with
    name := reportedName d
    type := d.deviceType.getD "unknown"
    location := d.location.getD ""
    platform := d.vendor.getD "cisco_ios"
    osVersion := d.osVersion.getD ""
    serialNumber := d.serialNumber.getD ""
    pingStatus := d.pingStatus
    snmpStatus := d.snmpStatus
    discoveryMethod := d.discoveryMethod.getD "unknown"
    updatedAt := now }

/-- The field assignments performed on a topology row (lines 233-243); the
create paths pass the same values to the constructor. -/
def applyTopoReported (d : ReportedDevice) (now : Timestamp) (t : TopologyRow) :
    TopologyRow :=
  { t with
    hostname := d.hostname.getD (reportedName d)
    vendor := (deriveVendorModel (d.description.getD "")).1
    model := (deriveVendorModel (d.description.getD "")).2
    uptime := d.uptimeSeconds
    lastPolled := now
    healthLocation := d.location.getD ""
    healthContact := d.contact.getD ""
    healthCapabilities := d.capabilities }

/-- A fresh topology row for device `did` (lines 246-259 and 306-320). -/
def newTopologyRow (d : ReportedDevice) (now : Timestamp) (did n : Nat) :
    TopologyRow :=
  applyTopoReported d now
    { deviceId := did, networkId := n, hostname := "", vendor := "",
      model := "", uptime := 0, lastPolled := now, healthLocation := "",
      healthContact := "", healthCapabilities := [] }

/-- A fresh device row (lines 266-283): legacy defaults `company_id = 1`,
`owner_id = 1`; credentials are not supplied by agent reports. -/
def newDeviceRow (d : ReportedDevice) (now : Timestamp) (did n : Nat) :
    DeviceRow :=
  applyReported d now
    { id := did, name := "", ip := d.ip, type := "", location := "",
      platform := "", osVersion := "", serialNumber := "", username := none,
      password := none, pingStatus := false, snmpStatus := false,
      discoveryMethod := "", networkId := n, companyId := 1, ownerId := 1,
      createdAt := now, updatedAt := now }

/-- A fresh SNMP row from a reported configuration (lines 288-302). -/
def newSnmpRow (c : SnmpConfigData) (did : Nat) : SnmpRow :=
  { deviceId := did, snmpVersion := c.snmpVersion.getD "v2c",
    community := c.community, username := c.username,
    authProtocol := c.authProtocol, authPassword := c.authPassword,
    privProtocol := c.privProtocol, privPassword := c.privPassword,
    port := c.port.getD 161 }

/-- Reconciliation of one reported device into the inventory
(`AgentDiscoveryService.process_discovery_results`, per-device body of
lines 209-324).  When a row with the `(ip, network_id)` key exists it is
updated in place and its topology sibling is updated or created; otherwise
a new device (with optional SNMP mirror) and a new topology row are
inserted.  The update branch never touches the SNMP table. -/
def reconcileDevice (now : Timestamp) (n : Nat) (d : ReportedDevice)
    (inv : Inventory) : Inventory :=
  match inv.devices.find? (devKey d.ip n) with
  | some dev =>
      let updated := applyReported d now dev
      let topologies :=
        match inv.topologies.find? (fun t => t.deviceId == dev.id) with
        | some t =>
            replaceFirst (fun x => x.deviceId == dev.id)
              (applyTopoReported d now t) inv.topologies
        | none => inv.topologies ++ [newTopologyRow d now dev.id n]
      { inv with
        devices := replaceFirst (devKey d.ip n) updated inv.devices
        topologies := topologies }
  | none =>
      let dev := newDeviceRow d now inv.nextId n
      { nextId := inv.nextId + 1
        devices := inv.devices ++ [dev]
        topologies := inv.topologies ++ [newTopologyRow d now inv.nextId n]
        snmps :=
          match d.snmpConfig with
          | some c => inv.snmps ++ [newSnmpRow c inv.nextId]
          | none => inv.snmps }

/-- Key lookup in the inventory. -/
def findDevice (inv : Inventory) (ip : String) (n : Nat) : Option DeviceRow :=
  inv.devices.find? (devKey ip n)

/-- Number of device rows carrying a given `(ip, network_id)` key. -/
def countDevKey (inv : Inventory) (ip : String) (n : Nat) : Nat :=
  inv.devices.countP (devKey ip n)

/-- Number of topology rows attached to a device id. -/
def countTopo (inv : Inventory) (did : Nat) : Nat :=
  inv.topologies.countP fun t => t.deviceId == did

/-- Well-formedness of the inventory: unique `(ip, network_id)` keys
(the declared Device invariant), unique topology ownership, and all ids
below the store's next id. -/
def InvWf (inv : Inventory) : Prop :=
  (inv.devices.map fun r => (r.ip, r.networkId)).Nodup ∧
  (inv.topologies.map fun t => t.deviceId).Nodup ∧
  (∀ r ∈ inv.devices, r.id < inv.nextId) ∧
  (∀ t ∈ inv.topologies, t.deviceId < inv.nextId)

/-- Payload of a manual device update (the `DeviceCreate` schema as
consumed by `DeviceService.update_device`); a `discovery_method` key may be
present in the payload but is skipped by the update loop. -/
structure DeviceUpdate where
  name : String
  ip : String
  location : String
  type : String
  platform : String
  username : String
  password : String
  osVersion : Option String
  serialNumber : Option String
  networkId : Option Nat
  discoveryMethod : Option String
  deriving DecidableEq, Repr

/-- Manual update `DeviceService.update_device`
(`device_service.py`, lines 65-86): every payload key except
`discovery_method` is applied; afterwards an `auto` discovery method is
re-asserted (the net effect is that the stored `discovery_method` is never
changed by this path). -/
def update_device (r : DeviceRow) (u : DeviceUpdate) : DeviceRow :=
  let base :=
    { r with
      name := u.name, ip := u.ip, location := u.location, type := u.type,
      platform := u.platform, username := some u.username,
      password := some u.password, osVersion := u.osVersion.getD "",
      serialNumber := u.serialNumber.getD "",
      networkId := u.networkId.getD r.networkId }
  if r.discoveryMethod == "auto" then { base with discoveryMethod := "auto" }
  else base

/-! ### Round-robin IP distribution -/

/-- Python dict comprehension over possibly-duplicated keys: insert each
key in order, keeping the first occurrence (a later duplicate re-assigns
the same empty list and creates no new entry). -/
def dictKeysInitAux (seen : List Nat) : List Nat → List (Nat × List String)
  | [] => []
  | a :: rest =>
      if a ∈ seen then dictKeysInitAux seen rest
      else (a, []) :: dictKeysInitAux (a :: seen) rest

/-- The initial bucket map `{agent_id: [] for agent_id in agent_ids}`. -/
def dictKeysInit (l : List Nat) : List (Nat × List String) :=
  dictKeysInitAux [] l

/-- Python `distribution[agent_id].append(ip)` on the bucket map. -/
def appendTo : List (Nat × List String) → Nat → String → List (Nat × List String)
  | [], _, _ => []
  | (k, l) :: rest, aid, ip =>
      if k = aid then (k, l ++ [ip]) :: rest else (k, l) :: appendTo rest aid ip

/-- `distribute_ips_to_agents(ips, agent_ids)`
(`cisco_ai_backend/app/utils/discovery_utils.py`, lines 125-137; the
service method of `agent_discovery_service.py`, lines 60-76, is the same
algorithm over agent rows): empty agent list yields an empty map, otherwise
ip number `i` goes to the bucket of `agent_ids[i % len(agent_ids)]`. -/
def distribute_ips_to_agents (ips : List String) (agentIds : List Nat) :
    List (Nat × List String) :=
  if agentIds.isEmpty then []
  else
    ips.enum.foldl
      (fun bs p => appendTo bs (agentIds.getD (p.1 % agentIds.length) 0) p.2)
      (dictKeysInit agentIds)

/-- Association-list lookup of one agent's bucket. -/
def lookupBucket (bs : List (Nat × List String)) (aid : Nat) :
    Option (List String) :=
  (bs.find? fun b => b.1 == aid).map Prod.snd

/-- The ips whose position index is congruent to `j` modulo `k`
(specification-side description of one round-robin bucket). -/
def idxList (ips : List String) (k j : Nat) : List String :=
  (ips.enum.filter fun p => p.1 % k == j).map Prod.snd

/-! ### Concrete fixtures used by counterexamples and witnesses -/

/-- Agent 11 with a heartbeat six minutes old at `now = 1000`
(spec scenario S4). -/
def agentStale : Agent :=
  { id := 11, name := "agent-11", token := "t11", status := "online",
    tokenStatus := "active", lastHeartbeat := some ⟨true, 640⟩,
    lastUsedAt := none }

/-- A store holding only `agentStale`, bound to network 3. -/
def dbStale : AgentDB := { agents := [agentStale], bindings := [⟨11, 3⟩] }

/-- An agent stored as online with an active token and bound to network 3,
whose last heartbeat lies hours in the past. -/
def agentStaleActive : Agent :=
  { id := 2, name := "agent-2", token := "t2", status := "online",
    tokenStatus := "active", lastHeartbeat := some ⟨true, 0⟩,
    lastUsedAt := none }

/-- A store holding only `agentStaleActive`, bound to network 3. -/
def dbStaleActive : AgentDB :=
  { agents := [agentStaleActive], bindings := [⟨2, 3⟩] }

/-- An agent whose token `tok7` has been revoked, about to heartbeat. -/
def agentRevokedHb : Agent :=
  { id := 7, name := "agent-7", token := "tok7", status := "offline",
    tokenStatus := "revoked", lastHeartbeat := some ⟨false, 0⟩,
    lastUsedAt := some ⟨false, 0⟩ }

/-- A discovery session currently at progress 50. -/
def sessionHalf : SessionRec :=
  { progress := 50, status := "in_progress", discoveredDevices := [],
    errors := [], networkId := some 3, startedAt := ⟨false, 0⟩,
    completedAt := none }

/-- A session table holding only `sessionHalf`. -/
def sessionsFix : SessionTable := [("discovery_abc", sessionHalf)]

/-- A device row whose discovery method has been upgraded to `auto`. -/
def devAuto : DeviceRow :=
  { id := 5, name := "sw1", ip := "10.0.0.1", type := "switch", location := "",
    platform := "cisco_ios", osVersion := "", serialNumber := "",
    username := none, password := none, pingStatus := true, snmpStatus := true,
    discoveryMethod := "auto", networkId := 3, companyId := 1, ownerId := 1,
    createdAt := ⟨false, 0⟩, updatedAt := ⟨false, 0⟩ }

/-- An inventory holding `devAuto` and its topology sibling. -/
def invAuto : Inventory :=
  { nextId := 6, devices := [devAuto],
    topologies := [⟨5, 3, "sw1", "Cisco", "Cisco IOS", 0, ⟨false, 0⟩, "", "", []⟩],
    snmps := [] }

/-- An agent report for `(10.0.0.1, network 3)` carrying
`discovery_method = "manual"`. -/
def reportManual : ReportedDevice :=
  { hostname := some "sw1", name := none, ip := "10.0.0.1",
    deviceType := some "switch", location := none, vendor := none,
    osVersion := none, serialNumber := none, description := none,
    uptimeSeconds := 0, discoveryMethod := some "manual", pingStatus := true,
    snmpStatus := true, contact := none, capabilities := [],
    snmpConfig := none }

/-- An agent report for `(10.0.0.2, network 3)` with hostname `sw2`. -/
def reportSwTwo : ReportedDevice :=
  { hostname := some "sw2", name := none, ip := "10.0.0.2",
    deviceType := some "switch", location := some "lab",
    vendor := some "cisco_ios", osVersion := some "15.2",
    serialNumber := some "FDO1", description := some "Cisco IOS Software",
    uptimeSeconds := 3600, discoveryMethod := some "auto", pingStatus := true,
    snmpStatus := true, contact := some "ops", capabilities := ["snmp"],
    snmpConfig := some ⟨some "v2c", some "public", none, none, none, none, none, some 161⟩ }

/-- A pending discovery item for agent 4. -/
def itemDisc : WorkItem :=
  { type := "discovery", sessionId := "discovery_abc", networkId := 3 }

/-- A pending status-test item for agent 4. -/
def itemST : WorkItem :=
  { type := "status_test", sessionId := "background_status_ab", networkId := 3 }

end MSys

namespace MSys

/-! ### General lemmas on the row-mutation and lookup primitives -/

theorem coerceUTC_sec (t : Timestamp) : (coerceUTC t).sec = t.sec := by
  unfold coerceUTC
  by_cases h : t.naive <;> simp [h]

theorem find?_replaceFirst_self {p : α → Bool} {new : α} (hnew : p new = true)
    {l : List α} {a : α} (h : l.find? p = some a) :
    (replaceFirst p new l).find? p = some new := by
  induction l with
  | nil => simp [List.find?] at h
  | cons x xs ih =>
      by_cases hx : p x = true
      · simp [replaceFirst, hx, List.find?_cons_of_pos _ hnew]
      · rw [List.find?_cons_of_neg _ hx] at h
        simp [replaceFirst, hx, List.find?_cons_of_neg _ hx, ih h]

theorem replaceFirst_idem {p : α → Bool} {new : α} (hnew : p new = true)
    (l : List α) :
    replaceFirst p new (replaceFirst p new l) = replaceFirst p new l := by
  induction l with
  | nil => rfl
  | cons x xs ih =>
      by_cases hx : p x = true
      · simp [replaceFirst, hx, hnew]
      · simp [replaceFirst, hx, ih]

theorem replaceFirst_append_left {p : α → Bool} {new : α} {l₁ : List α}
    (h : l₁.find? p = none) (l₂ : List α) :
    replaceFirst p new (l₁ ++ l₂) = l₁ ++ replaceFirst p new l₂ := by
  induction l₁ with
  | nil => rfl
  | cons x xs ih =>
      rw [List.find?_cons] at h
      cases hx : p x with
      | true => simp [hx] at h
      | false =>
          simp only [hx] at h
          simp [replaceFirst, hx, ih h]

theorem countP_replaceFirst {p : α → Bool} {new : α} (hnew : p new = true)
    (l : List α) : (replaceFirst p new l).countP p = l.countP p := by
  induction l with
  | nil => rfl
  | cons x xs ih =>
      by_cases hx : p x = true
      · simp [replaceFirst, hx, List.countP_cons, hnew]
      · simp [replaceFirst, hx, List.countP_cons, ih]

theorem countP_le_one_of_nodup_map {f : α → β} {l : List α}
    (h : (l.map f).Nodup) {p : α → Bool}
    (hp : ∀ a₁ a₂, p a₁ = true → p a₂ = true → f a₁ = f a₂) :
    l.countP p ≤ 1 := by
  induction l with
  | nil => simp
  | cons x xs ih =>
      simp only [List.map_cons, List.nodup_cons] at h
      by_cases hx : p x = true
      · have hzero : xs.countP p = 0 := by
          rw [List.countP_eq_zero]
          intro a ha hpa
          have hfa : f a = f x := hp a x hpa hx
          exact h.1 (hfa ▸ List.mem_map_of_mem f ha)
        simp [List.countP_cons, hx, hzero]
      · simp only [List.countP_cons, hx, if_false]
        exact Nat.le_trans (by simp) (ih h.2)

end MSys

namespace MSys

/-! ### Claim C9: derived online/offline status -/

/-- C9: on the modelled read paths the derived status is `online` iff a
heartbeat exists and `now - last_heartbeat <= 60` seconds (a naive
timestamp is coerced to UTC keeping its instant); a missing heartbeat
derives `offline`, and a heartbeat exactly 60 seconds old derives
`online`. -/
theorem derived_status_online_iff (now : Int) (hb : Option Timestamp) :
    (deriveStatus now hb = "online" ↔ ∃ t, hb = some t ∧ now - t.sec ≤ 60) ∧
    deriveStatus now none = "offline" ∧
    (∀ b : Bool, deriveStatus now (some ⟨b, now - 60⟩) = "online") := by
  refine ⟨?_, rfl, ?_⟩
  · cases hb with
    | none =>
        simp only [deriveStatus]
        constructor
        · intro h
          exact absurd h (by decide)
        · rintro ⟨t, ht, _⟩
          exact absurd ht (by simp)
    | some t =>
        simp only [deriveStatus]
        by_cases h : now - (coerceUTC t).sec > 60
        · rw [if_pos h]
          rw [coerceUTC_sec] at h
          constructor
          · intro hco
            exact absurd hco (by decide)
          · rintro ⟨u, hu, hle⟩
            cases hu
            omega
        · rw [if_neg h]
          rw [coerceUTC_sec] at h
          constructor
          · intro _
            exact ⟨t, rfl, by omega⟩
          · intro _
            rfl
  · intro b
    simp only [deriveStatus]
    rw [if_neg (by rw [coerceUTC_sec]; show ¬(now - (now - 60) > 60); omega)]

/-- Closed instance of `derived_status_online_iff` at a concrete naive
heartbeat 50 seconds old. -/
theorem derived_status_online_iff_witness :
    deriveStatus 100 (some ⟨true, 50⟩) = "online" :=
  (derived_status_online_iff 100 (some ⟨true, 50⟩)).1.mpr
    ⟨⟨true, 50⟩, rfl, by decide⟩

/-! ### Claim C1: what the dispatch paths actually guarantee -/

/-- C1 is false as stated: the RMS background sweeper — the one dispatch
path whose selection query executes — selects an agent whose last
heartbeat is far older than five minutes (its query has no
heartbeat-freshness condition; here the heartbeat is at epoch second 0
while the tick happens at second 1000000). -/
theorem sweep_selects_stale_heartbeat_agent :
    rmsSweepSelect dbStaleActive 3 = some agentStaleActive ∧
    agentStaleActive.lastHeartbeat = some ⟨true, 0⟩ ∧
    ¬((1000000 : Int) - 0 ≤ 300) := by
  exact ⟨rfl, rfl, by decide⟩

/-- C1 (amended): the RMS background sweeper is the only dispatch path
whose selection ever executes, and it guarantees stored status `online`,
an active token and a binding to the network — but no heartbeat
freshness.  The user `POST /discovery` handler fails with the generic 500
before its selection query runs (unimported `User` name), so it never
selects an agent; the cisco sweeper's module fails at import
(`pending_discovery_requests` is not defined in `endpoints/agents.py`)
and its query names a column the cisco `Agent` model lacks, so it never
selects one either. -/
theorem sweeper_selection_guarantees (now : Int) (db : AgentDB) (n : Nat)
    (a : Agent) (pending : PendingTable) (sessions : SessionTable) :
    (rmsSweepSelect db n = some a →
       a.status = "online" ∧ a.tokenStatus = "active" ∧
         boundTo db a.id n = true) ∧
    (∀ nm, (agentDiscoveryEndpoint now db true true n pending
        sessions).1 ≠ DiscoveryOutcome.ok nm) := by
  constructor
  · intro h
    have hp := List.find?_some h
    simp only [Bool.and_eq_true, beq_iff_eq] at hp
    exact ⟨hp.1.2, hp.2, hp.1.1⟩
  · intro nm h
    simp [agentDiscoveryEndpoint, discoveryModuleUserImported] at h

/-- Closed instance of `sweeper_selection_guarantees` on the concrete
store `dbStaleActive`, discharging the selection hypothesis by
computation. -/
theorem sweeper_selection_guarantees_witness :
    agentStaleActive.status = "online" ∧
      agentStaleActive.tokenStatus = "active" ∧
      boundTo dbStaleActive agentStaleActive.id 3 = true :=
  (sweeper_selection_guarantees 1000 dbStaleActive 3 agentStaleActive
    [] []).1 rfl

/-! ### Claim C2: user dispatch with no qualifying agent -/

/-- C2 is false as stated: with devices present and no online agent bound
to the network, the `POST /discovery` call fails with HTTP 500 and the
generic routing-error detail (the handler's unimported `User` name raises
`NameError` before anything else), not with 503 and the no-capacity
detail. -/
theorem no_agent_dispatch_returns_500 :
    (agentDiscoveryEndpoint 1000 dbStale true true 3 [] []).1 =
      .httpError
        ⟨500, "Error routing discovery: name 'User' is not defined"⟩ ∧
    (500 : Nat) ≠ 503 := by
  exact ⟨rfl, by decide⟩

/-- C2 (amended): every `POST /discovery` request — whatever the agent,
binding and device state — fails with HTTP 500 and detail
`"Error routing discovery: name 'User' is not defined"`, and neither a
session nor a pending work item is created; in particular the 503
no-capacity answer never occurs. -/
theorem discovery_dispatch_always_500 (now : Int) (db : AgentDB)
    (userExists hasNetworkAccess : Bool) (n : Nat)
    (pending : PendingTable) (sessions : SessionTable) :
    agentDiscoveryEndpoint now db userExists hasNetworkAccess n pending
        sessions =
      (.httpError
        ⟨500, "Error routing discovery: name 'User' is not defined"⟩,
       pending, sessions) := rfl

/-! ### Claim C3: heartbeat with a revoked token -/

/-- C3 (code-bug evidence): the cisco heartbeat endpoint accepts a revoked
token and stamps `last_heartbeat`/`last_used_at`/`status = online`, while
the RMS handler on the same state rejects it with 401 and leaves the row
unchanged. -/
theorem cisco_heartbeat_accepts_revoked_token :
    (ciscoAgentHeartbeat ⟨false, 5000⟩ "tok7" [agentRevokedHb]).1 = .ok () ∧
    (ciscoAgentHeartbeat ⟨false, 5000⟩ "tok7" [agentRevokedHb]).2 =
      [{ agentRevokedHb with
          lastHeartbeat := some ⟨false, 5000⟩,
          lastUsedAt := some ⟨false, 5000⟩,
          status := "online" }] ∧
    handleAgentHeartbeat ⟨false, 5000⟩ "tok7" [agentRevokedHb] =
      (.error ⟨401, "Agent token is not active"⟩, [agentRevokedHb]) := by
  exact ⟨rfl, rfl, rfl⟩

/-! ### Claim C7: session progress monotonicity -/

/-- C7 is false as stated: a progress update carrying a smaller value than
the stored one succeeds and lowers the stored progress (50 to 10). -/
theorem progress_decreases_counterexample :
    (lookupSession sessionsFix "discovery_abc").map SessionRec.progress =
      some 50 ∧
    (update_discovery_progress ⟨false, 10⟩ sessionsFix "discovery_abc" 10
        [] []).1 = true ∧
    (lookupSession
        (update_discovery_progress ⟨false, 10⟩ sessionsFix "discovery_abc" 10
          [] []).2 "discovery_abc").map SessionRec.progress = some 10 ∧
    ¬((10 : Int) ≥ 50) := by
  exact ⟨rfl, rfl, rfl, by decide⟩

/-- C7 (amended): a successful `update_discovery_progress` stores exactly
the caller-supplied progress value — so the stored progress is
non-decreasing only when the supplied values are; the tracker itself does
not enforce monotonicity. -/
theorem update_progress_stores_supplied (now : Timestamp) (ss : SessionTable)
    (sid : String) (p : Int) (devs errs : List String) (s : SessionRec)
    (h : lookupSession ss sid = some s) :
    (update_discovery_progress now ss sid p devs errs).1 = true ∧
    (lookupSession (update_discovery_progress now ss sid p devs errs).2
        sid).map SessionRec.progress = some p := by
  have hfind : ∃ e, ss.find? (fun q => q.1 == sid) = some e := by
    unfold lookupSession at h
    cases hf : ss.find? (fun q => q.1 == sid) with
    | none => rw [hf] at h; simp at h
    | some e => exact ⟨e, rfl⟩
  obtain ⟨e, hf⟩ := hfind
  simp only [update_discovery_progress, h]
  refine ⟨trivial, ?_⟩
  rw [lookupSession,
      find?_replaceFirst_self (by simp) hf]
  simp only [Option.map_some']
  split_ifs <;> rfl

/-- Closed instance of `update_progress_stores_supplied` on the concrete
session table `sessionsFix`. -/
theorem update_progress_stores_supplied_witness :
    (update_discovery_progress ⟨false, 10⟩ sessionsFix "discovery_abc" 10
        [] []).1 = true ∧
    (lookupSession
        (update_discovery_progress ⟨false, 10⟩ sessionsFix "discovery_abc" 10
          [] []).2 "discovery_abc").map SessionRec.progress = some 10 :=
  update_progress_stores_supplied ⟨false, 10⟩ sessionsFix "discovery_abc" 10
    [] [] sessionHalf rfl

end MSys

namespace MSys

/-! ### Lemmas on the dict primitives -/

theorem find?_append_none {p : α → Bool} {l₁ : List α}
    (h : l₁.find? p = none) (l₂ : List α) :
    (l₁ ++ l₂).find? p = l₂.find? p := by
  induction l₁ with
  | nil => rfl
  | cons x xs ih =>
      rw [List.find?_cons] at h
      cases hx : p x with
      | true => simp [hx] at h
      | false =>
          simp only [hx] at h
          rw [List.cons_append, List.find?_cons_of_neg _ (by simp [hx]), ih h]

theorem getItem_cons (k : Nat) (v : WorkItem) (l : PendingTable) (a : Nat) :
    getItem ((k, v) :: l) a = if k = a then some v else getItem l a := by
  unfold getItem
  by_cases hk : k = a
  · rw [List.find?_cons_of_pos _ (by simp [hk])]
    simp [hk]
  · rw [List.find?_cons_of_neg _ (by simp [hk])]
    simp [hk]

theorem getItem_setItem (t : PendingTable) (k : Nat) (it : WorkItem) (a : Nat) :
    getItem (setItem t k it) a = if k = a then some it else getItem t a := by
  induction t with
  | nil =>
      by_cases hk : k = a <;> simp [setItem, getItem_cons, getItem, hk]
  | cons e rest ih =>
      obtain ⟨k0, v⟩ := e
      by_cases h0 : k0 = k
      · subst h0
        simp only [setItem, if_pos rfl]
        by_cases hk : k0 = a <;> simp [getItem_cons, hk]
      · simp only [setItem, if_neg h0]
        by_cases hk : k0 = a
        · subst hk
          rw [getItem_cons, getItem_cons, if_pos rfl, if_pos rfl,
              if_neg (fun hh => h0 hh.symm)]
        · rw [getItem_cons, getItem_cons, if_neg hk, if_neg hk, ih]

theorem setItem_cons (k0 : Nat) (v : WorkItem) (rest : PendingTable)
    (k : Nat) (it : WorkItem) :
    setItem ((k0, v) :: rest) k it =
      if k0 = k then (k, it) :: rest else (k0, v) :: setItem rest k it := rfl

theorem eraseKey_cons (k0 : Nat) (v : WorkItem) (rest : PendingTable)
    (a : Nat) :
    eraseKey ((k0, v) :: rest) a =
      if k0 = a then rest else (k0, v) :: eraseKey rest a := rfl

theorem mem_keys_setItem {t : PendingTable} {k : Nat} {it : WorkItem} {a : Nat}
    (h : a ∈ (setItem t k it).map Prod.fst) :
    a ∈ t.map Prod.fst ∨ a = k := by
  induction t with
  | nil =>
      right
      rcases List.mem_map.mp h with ⟨e, he, hfst⟩
      rcases List.mem_singleton.mp he with rfl
      exact hfst.symm
  | cons e rest ih =>
      obtain ⟨k0, v⟩ := e
      by_cases h0 : k0 = k
      · rw [setItem_cons, if_pos h0, List.map_cons] at h
        rcases List.mem_cons.mp h with h | h
        · exact Or.inr h
        · exact Or.inl (by rw [List.map_cons]; exact List.mem_cons_of_mem _ h)
      · rw [setItem_cons, if_neg h0, List.map_cons] at h
        rcases List.mem_cons.mp h with h | h
        · exact Or.inl (by rw [List.map_cons]; exact List.mem_cons.mpr (Or.inl h))
        · rcases ih h with h1 | h1
          · exact Or.inl (by rw [List.map_cons]; exact List.mem_cons_of_mem _ h1)
          · exact Or.inr h1

theorem nodup_setItem {t : PendingTable} (hn : pendingKeysNodup t)
    (k : Nat) (it : WorkItem) : pendingKeysNodup (setItem t k it) := by
  induction t with
  | nil => simp [setItem, pendingKeysNodup]
  | cons e rest ih =>
      obtain ⟨k0, v⟩ := e
      simp only [pendingKeysNodup, List.map_cons, List.nodup_cons] at hn
      by_cases h0 : k0 = k
      · rw [setItem_cons, if_pos h0]
        simp only [pendingKeysNodup, List.map_cons, List.nodup_cons]
        exact ⟨h0 ▸ hn.1, hn.2⟩
      · rw [setItem_cons, if_neg h0]
        simp only [pendingKeysNodup, List.map_cons, List.nodup_cons]
        refine ⟨?_, ih hn.2⟩
        intro hmem
        rcases mem_keys_setItem hmem with h1 | h1
        · exact hn.1 h1
        · exact h0 h1

theorem keys_eraseKey_sublist (t : PendingTable) (a : Nat) :
    ((eraseKey t a).map Prod.fst).Sublist (t.map Prod.fst) := by
  induction t with
  | nil => simp [eraseKey]
  | cons e rest ih =>
      obtain ⟨k0, v⟩ := e
      by_cases h0 : k0 = a
      · rw [eraseKey_cons, if_pos h0, List.map_cons]
        exact List.sublist_cons_self _ _
      · rw [eraseKey_cons, if_neg h0, List.map_cons, List.map_cons]
        exact ih.cons₂ k0

theorem nodup_eraseKey {t : PendingTable} (hn : pendingKeysNodup t) (a : Nat) :
    pendingKeysNodup (eraseKey t a) :=
  (keys_eraseKey_sublist t a).nodup hn

theorem getItem_eraseKey {t : PendingTable} (hn : pendingKeysNodup t)
    (k a : Nat) :
    getItem (eraseKey t k) a = if k = a then none else getItem t a := by
  induction t with
  | nil => by_cases hk : k = a <;> simp [eraseKey, getItem, hk]
  | cons e rest ih =>
      obtain ⟨k0, v⟩ := e
      simp only [pendingKeysNodup, List.map_cons, List.nodup_cons] at hn
      by_cases h0 : k0 = k
      · rw [eraseKey_cons, if_pos h0]
        by_cases hk : k = a
        · rw [if_pos hk]
          unfold getItem
          rw [List.find?_eq_none.mpr]
          · rfl
          · intro e he hb
            refine hn.1 ?_
            have he1 : e.1 = k0 := by
              have : e.1 = a := by simpa using hb
              rw [this, ← hk, h0]
            exact he1 ▸ List.mem_map_of_mem Prod.fst he
        · rw [if_neg hk, getItem_cons, if_neg (h0 ▸ hk)]
      · rw [eraseKey_cons, if_neg h0]
        by_cases hk : k0 = a
        · rw [getItem_cons, getItem_cons, if_pos hk, if_pos hk,
              if_neg (fun hh => h0 (hk ▸ hh.symm))]
        · rw [getItem_cons, getItem_cons, if_neg hk, if_neg hk, ih hn.2]

end MSys

namespace MSys

/-! ### Claim C5: poll/acknowledge semantics of the dispatch table -/

/-- C5: polling a pending `status_test` item delivers it and removes it
(a second poll returns nothing); polling a pending `discovery` item
delivers it but retains it, and it is removed exactly by a cleanup call
whose session id matches the pending item's. -/
theorem poll_consume_semantics (t : PendingTable) (a : Nat) (it : WorkItem)
    (hn : pendingKeysNodup t) (h : getItem t a = some it) :
    (it.type = "status_test" →
        pollPending t a = ([it], eraseKey t a) ∧
        getItem (eraseKey t a) a = none ∧
        pollPending (eraseKey t a) a = ([], eraseKey t a)) ∧
    (it.type = "discovery" →
        pollPending t a = ([it], t) ∧
        cleanupRequest t a it.sessionId = eraseKey t a ∧
        getItem (eraseKey t a) a = none ∧
        ∀ sid, sid ≠ it.sessionId → cleanupRequest t a sid = t) := by
  have herase : getItem (eraseKey t a) a = none := by
    rw [getItem_eraseKey hn a a, if_pos rfl]
  constructor
  · intro hty
    refine ⟨?_, herase, ?_⟩
    · simp only [pollPending, h, hty]
      rw [if_pos (by simp)]
    · simp only [pollPending, herase]
  · intro hty
    refine ⟨?_, ?_, herase, ?_⟩
    · simp only [pollPending, h, hty]
      rw [if_neg (by simp)]
    · simp only [cleanupRequest, h]
      rw [if_pos (by simp)]
    · intro sid hsid
      simp only [cleanupRequest, h]
      rw [if_neg (by simp only [beq_iff_eq]; exact fun hh => hsid hh.symm)]

/-- Closed instance of `poll_consume_semantics` on a table holding one
pending discovery item for agent 4. -/
theorem poll_consume_semantics_witness :
    pollPending [(4, itemDisc)] 4 = ([itemDisc], [(4, itemDisc)]) ∧
    cleanupRequest [(4, itemDisc)] 4 itemDisc.sessionId =
      eraseKey [(4, itemDisc)] 4 :=
  ⟨((poll_consume_semantics [(4, itemDisc)] 4 itemDisc
      (by simp [pendingKeysNodup]) rfl).2 rfl).1,
   ((poll_consume_semantics [(4, itemDisc)] 4 itemDisc
      (by simp [pendingKeysNodup]) rfl).2 rfl).2.1⟩

end MSys

namespace MSys

/-! ### Claim C4: at-most-one item per agent, latest enqueue wins -/

theorem runPending_cons (t : PendingTable) (op : PendingOp)
    (rest : List PendingOp) :
    runPending t (op :: rest) = runPending (applyPendingOp t op) rest := rfl

theorem lastEnqFrom_cons_enqueue (init : Option WorkItem) (k : Nat)
    (it : WorkItem) (rest : List PendingOp) (aid : Nat) :
    lastEnqFrom init (.enqueue k it :: rest) aid =
      lastEnqFrom (if k = aid then some it else init) rest aid := rfl

theorem lastEnqFrom_cons_poll (init : Option WorkItem) (k : Nat)
    (rest : List PendingOp) (aid : Nat) :
    lastEnqFrom init (.poll k :: rest) aid = lastEnqFrom init rest aid := rfl

theorem lastEnqFrom_cons_cleanup (init : Option WorkItem) (k : Nat)
    (sid : String) (rest : List PendingOp) (aid : Nat) :
    lastEnqFrom init (.cleanup k sid :: rest) aid =
      lastEnqFrom init rest aid := rfl

theorem lastEnqFrom_cases (rest : List PendingOp) (aid : Nat) :
    ∀ i j : Option WorkItem,
      lastEnqFrom i rest aid = lastEnqFrom j rest aid ∨
      (lastEnqFrom i rest aid = i ∧ lastEnqFrom j rest aid = j) := by
  induction rest with
  | nil => intro i j; exact Or.inr ⟨rfl, rfl⟩
  | cons op rest ih =>
      intro i j
      cases op with
      | enqueue k it =>
          by_cases hk : k = aid
          · rw [lastEnqFrom_cons_enqueue, lastEnqFrom_cons_enqueue,
                if_pos hk, if_pos hk]
            exact Or.inl rfl
          · rw [lastEnqFrom_cons_enqueue, lastEnqFrom_cons_enqueue,
                if_neg hk, if_neg hk]
            exact ih i j
      | poll k =>
          rw [lastEnqFrom_cons_poll, lastEnqFrom_cons_poll]
          exact ih i j
      | cleanup k sid =>
          rw [lastEnqFrom_cons_cleanup, lastEnqFrom_cons_cleanup]
          exact ih i j

theorem nodup_applyPendingOp {t : PendingTable} (hn : pendingKeysNodup t)
    (op : PendingOp) : pendingKeysNodup (applyPendingOp t op) := by
  cases op with
  | enqueue aid it => exact nodup_setItem hn aid it
  | poll aid =>
      cases h : getItem t aid with
      | none => simpa only [applyPendingOp, pollPending, h] using hn
      | some it =>
          simp only [applyPendingOp, pollPending, h]
          by_cases hty : (it.type == "status_test") = true
          · rw [if_pos hty]
            exact nodup_eraseKey hn aid
          · rw [if_neg hty]
            exact hn
  | cleanup aid sid =>
      cases h : getItem t aid with
      | none => simpa only [applyPendingOp, cleanupRequest, h] using hn
      | some it =>
          simp only [applyPendingOp, cleanupRequest, h]
          by_cases hs : (it.sessionId == sid) = true
          · rw [if_pos hs]
            exact nodup_eraseKey hn aid
          · rw [if_neg hs]
            exact hn

theorem nodup_runPending {t : PendingTable} (hn : pendingKeysNodup t)
    (ops : List PendingOp) : pendingKeysNodup (runPending t ops) := by
  induction ops generalizing t with
  | nil => exact hn
  | cons op rest ih => exact ih (nodup_applyPendingOp hn op)

theorem getItem_runPending (ops : List PendingOp) :
    ∀ (t : PendingTable) (a : Nat), pendingKeysNodup t →
      getItem (runPending t ops) a = none ∨
      getItem (runPending t ops) a = lastEnqFrom (getItem t a) ops a := by
  induction ops with
  | nil => intro t a _; exact Or.inr rfl
  | cons op rest ih =>
      intro t a hn
      rw [runPending_cons]
      cases op with
      | enqueue k it =>
          rw [lastEnqFrom_cons_enqueue]
          have happ : applyPendingOp t (.enqueue k it) = setItem t k it := rfl
          rw [happ]
          rcases ih (setItem t k it) a (nodup_setItem hn k it) with h | h
          · exact Or.inl h
          · right
            rw [h, getItem_setItem]
      | poll k =>
          rw [lastEnqFrom_cons_poll]
          cases hgi : getItem t k with
          | none =>
              have happ : applyPendingOp t (.poll k) = t := by
                simp [applyPendingOp, pollPending, hgi]
              rw [happ]
              exact ih t a hn
          | some it =>
              by_cases hty : (it.type == "status_test") = true
              · have happ : applyPendingOp t (.poll k) = eraseKey t k := by
                  simp [applyPendingOp, pollPending, hgi, hty]
                rw [happ]
                rcases ih (eraseKey t k) a (nodup_eraseKey hn k) with h | h
                · exact Or.inl h
                · rw [getItem_eraseKey hn k a] at h
                  by_cases hk : k = a
                  · rw [if_pos hk] at h
                    rcases lastEnqFrom_cases rest a none (getItem t a)
                      with hc | hc
                    · right
                      rw [h, hc]
                    · left
                      rw [h, hc.1]
                  · rw [if_neg hk] at h
                    exact Or.inr h
              · have happ : applyPendingOp t (.poll k) = t := by
                  simp [applyPendingOp, pollPending, hgi, hty]
                rw [happ]
                exact ih t a hn
      | cleanup k sid =>
          rw [lastEnqFrom_cons_cleanup]
          cases hgi : getItem t k with
          | none =>
              have happ : applyPendingOp t (.cleanup k sid) = t := by
                simp [applyPendingOp, cleanupRequest, hgi]
              rw [happ]
              exact ih t a hn
          | some it =>
              by_cases hs : (it.sessionId == sid) = true
              · have happ : applyPendingOp t (.cleanup k sid) = eraseKey t k := by
                  simp [applyPendingOp, cleanupRequest, hgi, hs]
                rw [happ]
                rcases ih (eraseKey t k) a (nodup_eraseKey hn k) with h | h
                · exact Or.inl h
                · rw [getItem_eraseKey hn k a] at h
                  by_cases hk : k = a
                  · rw [if_pos hk] at h
                    rcases lastEnqFrom_cases rest a none (getItem t a)
                      with hc | hc
                    · right
                      rw [h, hc]
                    · left
                      rw [h, hc.1]
                  · rw [if_neg hk] at h
                    exact Or.inr h
              · have happ : applyPendingOp t (.cleanup k sid) = t := by
                  simp [applyPendingOp, cleanupRequest, hgi, hs]
                rw [happ]
                exact ih t a hn

/-- C4: along any run of table operations from the empty table, each agent
holds at most one entry; a fresh enqueue overwrites whatever was stored for
that agent; and whenever a poll delivers an item it is exactly the item of
the most recent enqueue for that agent (a poll that delivers nothing
corresponds to no outstanding enqueue or a consumed one). -/
theorem pending_at_most_one_and_latest (ops : List PendingOp) (a : Nat) :
    countKey (runPending [] ops) a ≤ 1 ∧
    (∀ (t : PendingTable) (it : WorkItem),
       getItem (enqueueWork t a it) a = some it) ∧
    (∀ it, (pollPending (runPending [] ops) a).1 = [it] →
       lastEnqFrom none ops a = some it) := by
  have hnil : pendingKeysNodup ([] : PendingTable) := by
    simp [pendingKeysNodup]
  have hn := nodup_runPending hnil ops
  refine ⟨?_, ?_, ?_⟩
  · exact countP_le_one_of_nodup_map hn (fun e₁ e₂ h₁ h₂ => by
      have h1 : e₁.1 = a := by simpa using h₁
      have h2 : e₂.1 = a := by simpa using h₂
      rw [h1, h2])
  · intro t it
    rw [enqueueWork, getItem_setItem, if_pos rfl]
  · intro it hpoll
    have hgi : getItem (runPending [] ops) a = some it := by
      unfold pollPending at hpoll
      cases hgim : getItem (runPending [] ops) a with
      | none => rw [hgim] at hpoll; simp at hpoll
      | some it0 =>
          rw [hgim] at hpoll
          have hit : it0 = it := by simpa using hpoll
          exact congrArg some hit
    rcases getItem_runPending ops [] a hnil with h | h
    · rw [hgi] at h
      exact absurd h (by simp)
    · rw [hgi] at h
      exact h.symm

/-- Closed instance of `pending_at_most_one_and_latest`: enqueueing twice
for agent 4 and polling observes the second item. -/
theorem pending_at_most_one_and_latest_witness :
    countKey (runPending []
      [PendingOp.enqueue 4 itemST, PendingOp.enqueue 4 itemDisc]) 4 ≤ 1 ∧
    lastEnqFrom none
      [PendingOp.enqueue 4 itemST, PendingOp.enqueue 4 itemDisc] 4 =
        some itemDisc :=
  ⟨(pending_at_most_one_and_latest
      [PendingOp.enqueue 4 itemST, PendingOp.enqueue 4 itemDisc] 4).1,
   (pending_at_most_one_and_latest
      [PendingOp.enqueue 4 itemST, PendingOp.enqueue 4 itemDisc] 4).2.2
      itemDisc rfl⟩

end MSys

namespace MSys

/-! ### Claim C8: stickiness of discovery_method = auto -/

/-- C8 is false as stated: reconciling an agent report that carries
`discovery_method = "manual"` for a device currently marked `auto`
overwrites the stored value with `manual`. -/
theorem reconcile_overwrites_auto_method :
    (findDevice invAuto "10.0.0.1" 3).map DeviceRow.discoveryMethod =
      some "auto" ∧
    (findDevice (reconcileDevice ⟨false, 100⟩ 3 reportManual invAuto)
        "10.0.0.1" 3).map DeviceRow.discoveryMethod = some "manual" ∧
    ("manual" : String) ≠ "auto" := by
  exact ⟨rfl, rfl, by decide⟩

/-- C8 (amended): the manual-update path never changes the stored
`discovery_method` (so `auto` stays `auto` there), while reconciliation
always stores the agent-reported value (default `"unknown"`) — `auto` is
preserved through reconciliation only when the report itself says
`auto`. -/
theorem discovery_method_after_update_and_reconcile (r : DeviceRow)
    (u : DeviceUpdate) (now : Timestamp) (n : Nat) (d : ReportedDevice)
    (inv : Inventory) :
    (update_device r u).discoveryMethod = r.discoveryMethod ∧
    (findDevice (reconcileDevice now n d inv) d.ip n).map
        DeviceRow.discoveryMethod =
      some (d.discoveryMethod.getD "unknown") := by
  constructor
  · unfold update_device
    by_cases h : (r.discoveryMethod == "auto") = true
    · rw [if_pos h]
      exact (beq_iff_eq.mp h).symm
    · rw [if_neg h]
  · unfold reconcileDevice findDevice
    cases hf : inv.devices.find? (devKey d.ip n) with
    | some dev =>
        have hkey : devKey d.ip n (applyReported d now dev) = true := by
          have hp := List.find?_some hf
          simpa [devKey, applyReported] using hp
        simp only
        rw [find?_replaceFirst_self hkey hf]
        rfl
    | none =>
        simp only
        rw [find?_append_none hf]
        rw [List.find?_cons_of_pos _
          (by simp [devKey, newDeviceRow, applyReported])]
        rfl

end MSys

namespace MSys

/-! ### Claim C6: idempotence of the result reconciler -/

theorem replaceFirst_singleton_pos {p : α → Bool} {a : α} (h : p a = true)
    (new : α) : replaceFirst p new [a] = [new] := by
  simp [replaceFirst, h]

theorem applyReported_idem (d : ReportedDevice) (now : Timestamp)
    (r : DeviceRow) :
    applyReported d now (applyReported d now r) = applyReported d now r := rfl

theorem applyReported_id (d : ReportedDevice) (now : Timestamp)
    (r : DeviceRow) : (applyReported d now r).id = r.id := rfl

theorem applyTopoReported_idem (d : ReportedDevice) (now : Timestamp)
    (t : TopologyRow) :
    applyTopoReported d now (applyTopoReported d now t) =
      applyTopoReported d now t := rfl

theorem applyTopoReported_deviceId (d : ReportedDevice) (now : Timestamp)
    (t : TopologyRow) :
    (applyTopoReported d now t).deviceId = t.deviceId := rfl

theorem applyReported_newDeviceRow (d : ReportedDevice) (now : Timestamp)
    (i n : Nat) :
    applyReported d now (newDeviceRow d now i n) = newDeviceRow d now i n :=
  rfl

theorem applyTopoReported_newTopologyRow (d : ReportedDevice)
    (now : Timestamp) (i n : Nat) :
    applyTopoReported d now (newTopologyRow d now i n) =
      newTopologyRow d now i n := rfl

theorem devKey_applyReported {d : ReportedDevice} {now : Timestamp}
    {n : Nat} {r : DeviceRow} (h : devKey d.ip n r = true) :
    devKey d.ip n (applyReported d now r) = true := by
  simpa [devKey, applyReported] using h

theorem devKey_newDeviceRow (d : ReportedDevice) (now : Timestamp)
    (i n : Nat) : devKey d.ip n (newDeviceRow d now i n) = true := by
  simp [devKey, newDeviceRow, applyReported]

/-- Shape of the reconciler's update branch. -/
theorem reconcileDevice_update {now : Timestamp} {n : Nat}
    {d : ReportedDevice} {inv : Inventory} {dev : DeviceRow}
    (hf : inv.devices.find? (devKey d.ip n) = some dev) :
    reconcileDevice now n d inv =
      { inv with
        devices :=
          replaceFirst (devKey d.ip n) (applyReported d now dev) inv.devices
        topologies :=
          match inv.topologies.find? (fun t => t.deviceId == dev.id) with
          | some t =>
              replaceFirst (fun x => x.deviceId == dev.id)
                (applyTopoReported d now t) inv.topologies
          | none => inv.topologies ++ [newTopologyRow d now dev.id n] } := by
  unfold reconcileDevice
  rw [hf]

/-- Shape of the reconciler's insert branch. -/
theorem reconcileDevice_insert {now : Timestamp} {n : Nat}
    {d : ReportedDevice} {inv : Inventory}
    (hf : inv.devices.find? (devKey d.ip n) = none) :
    reconcileDevice now n d inv =
      { nextId := inv.nextId + 1
        devices := inv.devices ++ [newDeviceRow d now inv.nextId n]
        topologies := inv.topologies ++ [newTopologyRow d now inv.nextId n]
        snmps :=
          match d.snmpConfig with
          | some c => inv.snmps ++ [newSnmpRow c inv.nextId]
          | none => inv.snmps } := by
  unfold reconcileDevice
  rw [hf]

end MSys

namespace MSys

theorem newDeviceRow_id (d : ReportedDevice) (now : Timestamp) (i n : Nat) :
    (newDeviceRow d now i n).id = i := rfl

theorem newTopologyRow_deviceId (d : ReportedDevice) (now : Timestamp)
    (i n : Nat) : (newTopologyRow d now i n).deviceId = i := rfl

/-- C6: reconciling the same reported record twice (with the same commit
time) yields exactly the state of reconciling it once; afterwards exactly
one device row carries the record's `(ip, network_id)` key and exactly one
topology row is attached to that device.  The second reconcile takes the
update branch and inserts no row, so no duplicate-key violation can
arise. -/
theorem reconcile_idempotent (now : Timestamp) (n : Nat) (d : ReportedDevice)
    (inv : Inventory) (hwf : InvWf inv) :
    reconcileDevice now n d (reconcileDevice now n d inv) =
      reconcileDevice now n d inv ∧
    countDevKey (reconcileDevice now n d inv) d.ip n = 1 ∧
    (∃ dev, findDevice (reconcileDevice now n d inv) d.ip n = some dev ∧
       countTopo (reconcileDevice now n d inv) dev.id = 1) := by
  obtain ⟨hdk, htk, hdlt, htlt⟩ := hwf
  have hple : ∀ l : List DeviceRow,
      (l.map fun r => (r.ip, r.networkId)).Nodup →
      l.countP (devKey d.ip n) ≤ 1 := by
    intro l hl
    refine countP_le_one_of_nodup_map hl (fun r₁ r₂ h₁ h₂ => ?_)
    simp only [devKey, Bool.and_eq_true, beq_iff_eq] at h₁ h₂
    rw [h₁.1, h₁.2, h₂.1, h₂.2]
  have htple : ∀ (i : Nat),
      inv.topologies.countP (fun t => t.deviceId == i) ≤ 1 := by
    intro i
    refine countP_le_one_of_nodup_map htk (fun t₁ t₂ h₁ h₂ => ?_)
    simp only [beq_iff_eq] at h₁ h₂
    rw [h₁, h₂]
  cases hf : inv.devices.find? (devKey d.ip n) with
  | some dev =>
      have hpkey := List.find?_some hf
      have hukey : devKey d.ip n (applyReported d now dev) = true :=
        devKey_applyReported hpkey
      have e1 := @reconcileDevice_update now n d inv dev hf
      have hf2 : (reconcileDevice now n d inv).devices.find? (devKey d.ip n) =
          some (applyReported d now dev) := by
        rw [e1]
        exact find?_replaceFirst_self hukey hf
      have hcount : countDevKey (reconcileDevice now n d inv) d.ip n = 1 := by
        rw [e1]
        show (replaceFirst (devKey d.ip n) (applyReported d now dev)
          inv.devices).countP (devKey d.ip n) = 1
        rw [countP_replaceFirst hukey]
        have hge : 0 < inv.devices.countP (devKey d.ip n) :=
          List.countP_pos_iff.mpr ⟨dev, List.mem_of_find?_eq_some hf, hpkey⟩
        have hle := hple inv.devices hdk
        omega
      cases ht : inv.topologies.find? (fun t => t.deviceId == dev.id) with
      | some t0 =>
          simp only [ht] at e1
          have htp0 := List.find?_some ht
          have htp1 : ((applyTopoReported d now t0).deviceId == dev.id) =
              true := by
            rw [applyTopoReported_deviceId]
            exact htp0
          have ht2 : (reconcileDevice now n d inv).topologies.find?
              (fun t => t.deviceId == (applyReported d now dev).id) =
              some (applyTopoReported d now t0) := by
            rw [e1]
            simp only [applyReported_id]
            exact @find?_replaceFirst_self _ (fun t : TopologyRow => t.deviceId == dev.id)
              _ htp1 _ _ ht
          have e2 := @reconcileDevice_update now n d (reconcileDevice now n d inv) _ hf2
          simp only [ht2] at e2
          refine ⟨?_, hcount, ?_⟩
          · rw [e2, e1]
            dsimp only
            simp only [applyReported_idem, applyTopoReported_idem,
                       applyReported_id]
            rw [replaceFirst_idem hukey,
                @replaceFirst_idem _ (fun t : TopologyRow => t.deviceId == dev.id)
                  (applyTopoReported d now t0) htp1 inv.topologies]
          · refine ⟨applyReported d now dev, hf2, ?_⟩
            rw [e1]
            show (replaceFirst (fun x => x.deviceId == dev.id)
                (applyTopoReported d now t0) inv.topologies).countP
              (fun t => t.deviceId == (applyReported d now dev).id) = 1
            simp only [applyReported_id]
            rw [@countP_replaceFirst _ (fun t : TopologyRow => t.deviceId == dev.id)
                  (applyTopoReported d now t0) htp1 inv.topologies]
            have hge : 0 < inv.topologies.countP
                (fun t => t.deviceId == dev.id) :=
              List.countP_pos_iff.mpr ⟨t0, List.mem_of_find?_eq_some ht, htp0⟩
            have hle := htple dev.id
            omega
      | none =>
          simp only [ht] at e1
          have hnewt : ((newTopologyRow d now dev.id n).deviceId == dev.id) =
              true := by
            rw [newTopologyRow_deviceId]
            simp
          have ht2 : (reconcileDevice now n d inv).topologies.find?
              (fun t => t.deviceId == (applyReported d now dev).id) =
              some (newTopologyRow d now dev.id n) := by
            rw [e1]
            simp only [applyReported_id]
            rw [find?_append_none ht,
                @List.find?_cons_of_pos _ (fun t : TopologyRow => t.deviceId == dev.id)
                  (newTopologyRow d now dev.id n) [] hnewt]
          have e2 := @reconcileDevice_update now n d (reconcileDevice now n d inv) _ hf2
          simp only [ht2] at e2
          refine ⟨?_, hcount, ?_⟩
          · rw [e2, e1]
            dsimp only
            simp only [applyReported_idem, applyReported_id,
                       applyTopoReported_newTopologyRow]
            rw [replaceFirst_idem hukey,
                replaceFirst_append_left ht,
                @replaceFirst_singleton_pos _ (fun t : TopologyRow => t.deviceId == dev.id)
                  (newTopologyRow d now dev.id n) hnewt
                  (newTopologyRow d now dev.id n)]
          · refine ⟨applyReported d now dev, hf2, ?_⟩
            rw [e1]
            show (inv.topologies ++ [newTopologyRow d now dev.id n]).countP
              (fun t => t.deviceId == (applyReported d now dev).id) = 1
            simp only [applyReported_id]
            rw [List.countP_append]
            have hzero : inv.topologies.countP
                (fun t => t.deviceId == dev.id) = 0 := by
              rw [List.countP_eq_zero]
              intro t htm
              exact List.find?_eq_none.mp ht t htm
            rw [hzero]
            simp [hnewt]
  | none =>
      have e1 := @reconcileDevice_insert now n d inv hf
      have hkeynew := devKey_newDeviceRow d now inv.nextId n
      have hf2 : (reconcileDevice now n d inv).devices.find?
          (devKey d.ip n) = some (newDeviceRow d now inv.nextId n) := by
        rw [e1]
        dsimp only
        rw [find?_append_none hf, List.find?_cons_of_pos _ hkeynew]
      have htpnone : inv.topologies.find?
          (fun t => t.deviceId == inv.nextId) = none := by
        rw [List.find?_eq_none]
        intro t htm hb
        have hlt := htlt t htm
        have heq : t.deviceId = inv.nextId := by simpa using hb
        omega
      have hnewt : ((newTopologyRow d now inv.nextId n).deviceId ==
          inv.nextId) = true := by
        rw [newTopologyRow_deviceId]
        simp
      have ht2 : (reconcileDevice now n d inv).topologies.find?
          (fun t => t.deviceId == (newDeviceRow d now inv.nextId n).id) =
          some (newTopologyRow d now inv.nextId n) := by
        rw [e1]
        dsimp only
        simp only [newDeviceRow_id]
        rw [find?_append_none htpnone,
            @List.find?_cons_of_pos _ (fun t : TopologyRow => t.deviceId == inv.nextId)
              (newTopologyRow d now inv.nextId n) [] hnewt]
      have e2 := @reconcileDevice_update now n d (reconcileDevice now n d inv) _ hf2
      simp only [ht2] at e2
      refine ⟨?_, ?_, ?_⟩
      · rw [e2, e1]
        dsimp only
        simp only [applyReported_newDeviceRow,
                   applyTopoReported_newTopologyRow, newDeviceRow_id]
        rw [replaceFirst_append_left hf, replaceFirst_singleton_pos hkeynew,
            replaceFirst_append_left htpnone,
            @replaceFirst_singleton_pos _ (fun t : TopologyRow => t.deviceId == inv.nextId)
              (newTopologyRow d now inv.nextId n) hnewt
              (newTopologyRow d now inv.nextId n)]
      · rw [e1]
        show (inv.devices ++ [newDeviceRow d now inv.nextId n]).countP
          (devKey d.ip n) = 1
        rw [List.countP_append]
        have hzero : inv.devices.countP (devKey d.ip n) = 0 := by
          rw [List.countP_eq_zero]
          intro r hrm
          exact List.find?_eq_none.mp hf r hrm
        rw [hzero]
        simp [hkeynew]
      · refine ⟨newDeviceRow d now inv.nextId n, hf2, ?_⟩
        rw [e1]
        show (inv.topologies ++ [newTopologyRow d now inv.nextId n]).countP
          (fun t => t.deviceId == (newDeviceRow d now inv.nextId n).id) = 1
        simp only [newDeviceRow_id]
        rw [List.countP_append]
        have hzero : inv.topologies.countP
            (fun t => t.deviceId == inv.nextId) = 0 := by
          rw [List.countP_eq_zero]
          intro t htm
          exact List.find?_eq_none.mp htpnone t htm
        rw [hzero]
        simp [hnewt]

end MSys

namespace MSys

/-- Closed instance of `reconcile_idempotent` on the concrete inventory
`invAuto` with report `reportSwTwo` (a fresh `(10.0.0.2, 3)` key, so the
first reconcile inserts and the second updates). -/
theorem reconcile_idempotent_witness :
    reconcileDevice ⟨false, 100⟩ 3 reportSwTwo
        (reconcileDevice ⟨false, 100⟩ 3 reportSwTwo invAuto) =
      reconcileDevice ⟨false, 100⟩ 3 reportSwTwo invAuto ∧
    countDevKey (reconcileDevice ⟨false, 100⟩ 3 reportSwTwo invAuto)
      "10.0.0.2" 3 = 1 :=
  ⟨(reconcile_idempotent ⟨false, 100⟩ 3 reportSwTwo invAuto (by unfold InvWf; decide)).1,
   (reconcile_idempotent ⟨false, 100⟩ 3 reportSwTwo invAuto (by unfold InvWf; decide)).2.1⟩

end MSys

namespace MSys

/-! ### Claim C10: round-robin IP distribution -/

/-- C10 is false as stated: with a duplicated agent id the bucket lengths
can differ by more than one (4 versus 2 here). -/
theorem distribute_unbalanced_with_duplicate_ids :
    distribute_ips_to_agents ["a", "b", "c", "d", "e", "f"] [1, 1, 2] =
      [(1, ["a", "b", "d", "e"]), (2, ["c", "f"])] ∧
    (distribute_ips_to_agents ["a", "b", "c", "d", "e", "f"]
        [1, 1, 2]).map (fun b => b.2.length) = [4, 2] ∧
    ¬((4 : Nat) ≤ 2 + 1) := by
  exact ⟨rfl, rfl, by decide⟩

theorem dictKeysInitAux_nodup {l : List Nat} (h : l.Nodup) :
    ∀ seen : List Nat, (∀ x ∈ l, x ∉ seen) →
      dictKeysInitAux seen l = l.map (fun a => (a, [])) := by
  induction l with
  | nil => intro seen _; rfl
  | cons a rest ih =>
      intro seen hd
      rw [List.nodup_cons] at h
      show (if a ∈ seen then _ else _) = _
      rw [if_neg (hd a (List.mem_cons_self a rest))]
      rw [ih h.2 (a :: seen) (fun x hx => by
        intro hmem
        rcases List.mem_cons.mp hmem with h1 | h1
        · exact h.1 (h1 ▸ hx)
        · exact hd x (List.mem_cons_of_mem a hx) h1)]
      rw [List.map_cons]

theorem dictKeysInit_nodup {l : List Nat} (h : l.Nodup) :
    dictKeysInit l = l.map (fun a => (a, [])) :=
  dictKeysInitAux_nodup h [] (by simp)

theorem lookupBucket_cons (k : Nat) (l : List String)
    (rest : List (Nat × List String)) (a : Nat) :
    lookupBucket ((k, l) :: rest) a =
      if k = a then some l else lookupBucket rest a := by
  unfold lookupBucket
  by_cases hk : k = a
  · rw [List.find?_cons_of_pos _ (by simp [hk])]
    simp [hk]
  · rw [List.find?_cons_of_neg _ (by simp [hk])]
    simp [hk]

theorem keys_appendTo (bs : List (Nat × List String)) (v : Nat) (x : String) :
    (appendTo bs v x).map Prod.fst = bs.map Prod.fst := by
  induction bs with
  | nil => rfl
  | cons e rest ih =>
      obtain ⟨k, l⟩ := e
      by_cases hk : k = v
      · simp [appendTo, hk]
      · simp [appendTo, hk, ih]

theorem appendTo_cons (k : Nat) (l : List String)
    (rest : List (Nat × List String)) (v : Nat) (x : String) :
    appendTo ((k, l) :: rest) v x =
      if k = v then (k, l ++ [x]) :: rest
      else (k, l) :: appendTo rest v x := rfl

theorem lookupBucket_appendTo (bs : List (Nat × List String)) (v : Nat)
    (x : String) (a : Nat) :
    lookupBucket (appendTo bs v x) a =
      if a = v then (lookupBucket bs a).map (fun l => l ++ [x])
      else lookupBucket bs a := by
  induction bs with
  | nil =>
      by_cases ha : a = v <;> simp [appendTo, lookupBucket, ha]
  | cons e rest ih =>
      obtain ⟨k, l⟩ := e
      rw [appendTo_cons]
      by_cases hkv : k = v
      · rw [if_pos hkv]
        simp only [lookupBucket_cons]
        split_ifs <;> first | rfl | omega
      · rw [if_neg hkv]
        simp only [lookupBucket_cons, ih]
        split_ifs <;> first | rfl | omega

theorem distribute_nil (agentIds : List Nat) (hne : agentIds ≠ []) :
    distribute_ips_to_agents [] agentIds = dictKeysInit agentIds := by
  unfold distribute_ips_to_agents
  rw [if_neg (by simpa [List.isEmpty_iff] using hne)]
  rfl

theorem distribute_append (ips : List String) (x : String)
    (agentIds : List Nat) (hne : agentIds ≠ []) :
    distribute_ips_to_agents (ips ++ [x]) agentIds =
      appendTo (distribute_ips_to_agents ips agentIds)
        (agentIds.getD (ips.length % agentIds.length) 0) x := by
  unfold distribute_ips_to_agents
  rw [if_neg (by simpa [List.isEmpty_iff] using hne),
      if_neg (by simpa [List.isEmpty_iff] using hne)]
  rw [List.enum_append, List.foldl_append]
  rfl

theorem idxList_append (ips : List String) (x : String) (k j : Nat) :
    idxList (ips ++ [x]) k j =
      idxList ips k j ++ (if ips.length % k == j then [x] else []) := by
  unfold idxList
  rw [List.enum_append, List.filter_append, List.map_append]
  congr 1
  by_cases h : (ips.length % k == j) = true
  · simp [List.enumFrom, h]
  · simp [List.enumFrom, h]

end MSys

namespace MSys

theorem length_idxList (ips : List String) (k j : Nat) (hk : 0 < k)
    (hj : j < k) :
    (idxList ips k j).length =
      ips.length / k + (if j < ips.length % k then 1 else 0) := by
  induction ips using List.reverseRecOn with
  | nil => simp [idxList]
  | append_singleton ips x ih =>
      rw [idxList_append, List.length_append, ih, List.length_append,
          List.length_singleton]
      have hlen : (if (ips.length % k == j) then [x]
          else ([] : List String)).length =
          if ips.length % k = j then 1 else 0 := by
        by_cases hj2 : ips.length % k = j <;> simp [hj2]
      rw [hlen]
      have hdm := Nat.div_add_mod ips.length k
      have hmlt : ips.length % k < k := Nat.mod_lt _ hk
      by_cases hr : ips.length % k + 1 = k
      · have hmod : (ips.length + 1) % k = 0 := by
          conv_lhs => rw [← hdm]
          rw [Nat.add_assoc, hr, Nat.mul_add_mod]
          exact Nat.mod_self k
        have hdiv : (ips.length + 1) / k = ips.length / k + 1 := by
          conv_lhs => rw [← hdm]
          rw [Nat.add_assoc, hr, Nat.mul_add_div hk, Nat.div_self hk]
        rw [hmod, hdiv]
        have hq : ips.length / k = ips.length / k := rfl
        split_ifs <;> omega
      · have hlt : ips.length % k + 1 < k := by omega
        have hmod : (ips.length + 1) % k = ips.length % k + 1 := by
          conv_lhs => rw [← hdm]
          rw [Nat.add_assoc, Nat.mul_add_mod]
          exact Nat.mod_eq_of_lt hlt
        have hdiv : (ips.length + 1) / k = ips.length / k := by
          conv_lhs => rw [← hdm]
          rw [Nat.add_assoc, Nat.mul_add_div hk, Nat.div_eq_of_lt hlt,
              Nat.add_zero]
        rw [hmod, hdiv]
        split_ifs <;> omega

theorem lookup_map_nil {l : List Nat} {a : Nat} (h : a ∈ l) :
    lookupBucket (l.map fun b => (b, [])) a = some [] := by
  induction l with
  | nil => cases h
  | cons b rest ih =>
      rw [List.map_cons, lookupBucket_cons]
      by_cases hb : b = a
      · rw [if_pos hb]
      · rw [if_neg hb]
        refine ih ?_
        rcases List.mem_cons.mp h with h1 | h1
        · exact absurd h1.symm hb
        · exact h1

theorem lookup_distribute {agentIds : List Nat} (hnd : agentIds.Nodup)
    (hne : agentIds ≠ []) (ips : List String) (j : Nat)
    (hj : j < agentIds.length) :
    lookupBucket (distribute_ips_to_agents ips agentIds)
      (agentIds.getD j 0) = some (idxList ips agentIds.length j) := by
  have hk : 0 < agentIds.length := List.length_pos.mpr hne
  induction ips using List.reverseRecOn with
  | nil =>
      rw [distribute_nil _ hne, dictKeysInit_nodup hnd]
      have hmem : agentIds.getD j 0 ∈ agentIds := by
        rw [List.getD_eq_getElem _ _ hj]
        exact List.getElem_mem _
      exact lookup_map_nil hmem
  | append_singleton ips x ih =>
      rw [distribute_append _ _ _ hne, lookupBucket_appendTo, idxList_append]
      have hj0 : ips.length % agentIds.length < agentIds.length :=
        Nat.mod_lt _ hk
      by_cases hjj : j = ips.length % agentIds.length
      · subst hjj
        rw [if_pos rfl, ih]
        simp
      · have hnea : agentIds.getD j 0 ≠
            agentIds.getD (ips.length % agentIds.length) 0 := by
          intro he
          rw [List.getD_eq_getElem _ _ hj, List.getD_eq_getElem _ _ hj0] at he
          exact hjj (hnd.getElem_inj_iff.mp he)
        rw [if_neg hnea, ih]
        have hb : (ips.length % agentIds.length == j) = false := by
          rw [beq_eq_false_iff_ne]
          exact fun h => hjj h.symm
        simp [hb]

end MSys

namespace MSys

theorem keys_distribute {agentIds : List Nat} (hnd : agentIds.Nodup)
    (hne : agentIds ≠ []) (ips : List String) :
    (distribute_ips_to_agents ips agentIds).map Prod.fst = agentIds := by
  induction ips using List.reverseRecOn with
  | nil =>
      rw [distribute_nil _ hne, dictKeysInit_nodup hnd, List.map_map]
      have hcomp : (Prod.fst ∘ fun a : Nat => (a, ([] : List String))) =
          id := rfl
      rw [hcomp, List.map_id]
  | append_singleton ips x ih =>
      rw [distribute_append _ _ _ hne, keys_appendTo, ih]

theorem lookupBucket_of_mem {bs : List (Nat × List String)}
    (hn : (bs.map Prod.fst).Nodup) {b : Nat × List String} (hb : b ∈ bs) :
    lookupBucket bs b.1 = some b.2 := by
  induction bs with
  | nil => cases hb
  | cons e rest ih =>
      obtain ⟨k, l⟩ := e
      rw [List.map_cons, List.nodup_cons] at hn
      rcases List.mem_cons.mp hb with h1 | h1
      · subst h1
        rw [lookupBucket_cons, if_pos rfl]
      · rw [lookupBucket_cons]
        by_cases hk : k = b.1
        · exfalso
          apply hn.1
          rw [hk]
          have hmm := List.mem_map_of_mem Prod.fst h1
          exact hmm
        · rw [if_neg hk]
          exact ih hn.2 h1

theorem sum_map_zero (l : List α) : (l.map fun _ => (0 : Nat)).sum = 0 := by
  induction l with
  | nil => rfl
  | cons a rest ih => simp [ih]

theorem count_singleton_ite (x ip : String) :
    [x].count ip = if x = ip then 1 else 0 := by
  by_cases hx : x = ip <;> simp [List.count_cons, hx]

theorem sum_counts_appendTo {bs : List (Nat × List String)} {v : Nat}
    (hv : v ∈ bs.map Prod.fst) (x ip : String) :
    ((appendTo bs v x).map (fun b => b.2.count ip)).sum =
      (bs.map (fun b => b.2.count ip)).sum + (if x = ip then 1 else 0) := by
  induction bs with
  | nil => simp at hv
  | cons e rest ih =>
      obtain ⟨k, l⟩ := e
      rw [appendTo_cons]
      by_cases hk : k = v
      · rw [if_pos hk]
        simp only [List.map_cons, List.sum_cons]
        rw [List.count_append, count_singleton_ite]
        omega
      · rw [if_neg hk]
        rw [List.map_cons] at hv
        rcases List.mem_cons.mp hv with h1 | h1
        · exact absurd h1.symm hk
        · simp only [List.map_cons, List.sum_cons, ih h1]
          omega

/-- C10 (amended): for a non-empty agent list with pairwise-distinct ids,
`distribute_ips_to_agents` partitions the input (each ip's multiplicity is
preserved across the buckets) and is balanced: any two buckets' lengths
differ by at most one.  With duplicate ids the balance clause fails. -/
theorem distribute_round_robin (ips : List String) (agentIds : List Nat)
    (hnd : agentIds.Nodup) (hne : agentIds ≠ []) :
    (∀ ip, ((distribute_ips_to_agents ips agentIds).map
        (fun b => b.2.count ip)).sum = ips.count ip) ∧
    (∀ b₁ ∈ distribute_ips_to_agents ips agentIds,
     ∀ b₂ ∈ distribute_ips_to_agents ips agentIds,
       b₁.2.length ≤ b₂.2.length + 1) := by
  have hk : 0 < agentIds.length := List.length_pos.mpr hne
  constructor
  · intro ip
    induction ips using List.reverseRecOn with
    | nil =>
        rw [distribute_nil _ hne, dictKeysInit_nodup hnd, List.map_map]
        have hcomp : ((fun b : Nat × List String => b.2.count ip) ∘
            (fun a : Nat => (a, []))) = (fun _ => (0 : Nat)) := rfl
        rw [hcomp, sum_map_zero]
        rfl
    | append_singleton ips x ih =>
        have hmem : agentIds.getD (ips.length % agentIds.length) 0 ∈
            (distribute_ips_to_agents ips agentIds).map Prod.fst := by
          rw [keys_distribute hnd hne]
          have hlt : ips.length % agentIds.length < agentIds.length :=
            Nat.mod_lt _ hk
          rw [List.getD_eq_getElem _ _ hlt]
          exact List.getElem_mem _
        rw [distribute_append _ _ _ hne, sum_counts_appendTo hmem, ih,
            List.count_append, count_singleton_ite]
  · intro b₁ hb₁ b₂ hb₂
    have hkeys := keys_distribute hnd hne ips
    have hkn : ((distribute_ips_to_agents ips agentIds).map
        Prod.fst).Nodup := by
      rw [hkeys]
      exact hnd
    have h1 : b₁.1 ∈ agentIds := by
      rw [← hkeys]
      exact List.mem_map_of_mem _ hb₁
    have h2 : b₂.1 ∈ agentIds := by
      rw [← hkeys]
      exact List.mem_map_of_mem _ hb₂
    obtain ⟨j₁, hj₁, he₁⟩ := List.getElem_of_mem h1
    obtain ⟨j₂, hj₂, he₂⟩ := List.getElem_of_mem h2
    have hl₁ := lookup_distribute hnd hne ips j₁ hj₁
    have hl₂ := lookup_distribute hnd hne ips j₂ hj₂
    rw [List.getD_eq_getElem _ _ hj₁, he₁] at hl₁
    rw [List.getD_eq_getElem _ _ hj₂, he₂] at hl₂
    have hm₁ := lookupBucket_of_mem hkn hb₁
    have hm₂ := lookupBucket_of_mem hkn hb₂
    have hbeq₁ : b₁.2 = idxList ips agentIds.length j₁ :=
      Option.some.inj (hm₁.symm.trans hl₁)
    have hbeq₂ : b₂.2 = idxList ips agentIds.length j₂ :=
      Option.some.inj (hm₂.symm.trans hl₂)
    rw [hbeq₁, hbeq₂, length_idxList _ _ _ hk hj₁,
        length_idxList _ _ _ hk hj₂]
    split_ifs <;> omega

/-- Closed instance of `distribute_round_robin` on three ips and two
distinct agent ids. -/
theorem distribute_round_robin_witness :
    ((distribute_ips_to_agents ["a", "b", "c"] [1, 2]).map
        (fun b => b.2.count "a")).sum =
      (["a", "b", "c"] : List String).count "a" :=
  (distribute_round_robin ["a", "b", "c"] [1, 2] (by decide)
    (by decide)).1 "a"

end MSys
